import Mathlib

/-
Shallow embedding of kythonlk/local-storage-client.

The repository has two near-identical classes: `LocalStorageClient`
(src/index.ts) and `LocalStorageTable` (the unnamed source file), the latter
adding remote-sync methods (`fetchData`, `syncPost`, `syncUpdate`, ...).
The shared CRUD core (`_getTable`, `_setTable`, `insert`, `select`, `update`,
`delete`, `clear`) is embedded once below; names follow the source.

Modelling decisions, each traceable to the source:
- Field values are JavaScript primitives (`Val`), compared with `===`
  (decidable equality).  `Val.vundef` models JavaScript `undefined`, the
  result of reading an absent property; `Val.vnull` models `null`.
- A record/query object is an association list `Obj` of fields; property
  access `item[key]` is `getField` (absent key yields `vundef`), matching
  `Object.keys(query).every(key => item[key] === query[key])`.
- The localStorage slot for the table is a `Slot`: absent key (`missing`,
  `getItem` returns null, so `'[]'` is parsed), unparseable content
  (`corrupt`, `JSON.parse` throws and the catch returns `[]`), or a
  parseable JSON value (`stored`).  `JsonVal` is the parsed JSON;
  `encodeObj`/`encodeTable` model `JSON.stringify` (which drops
  `undefined`-valued fields), `decodeObj`/`decodeTable` model re-parsing.
  The source casts the parse result with an unchecked `as T[]`; a stored
  non-array is modelled as decoding to the empty table (no claim exercises
  CRUD after a non-array write; claim C7 is about the write itself).
- `Date.now()` is passed in as an explicit clock argument `now`.
- One `fetchData` sync pass receives the network outcome as an oracle:
  `some j` when the GET succeeded and the body parsed to JSON value `j`,
  `none` when the request or `response.json()` failed (the catch branch).
- All operations are total Lean functions: nothing in the embedded code can
  throw, mirroring that every source method catches its I/O errors.
-/

namespace LocalStorageClient

/-- JavaScript primitive values as stored in records and queries, compared
with `===`.  `vundef` is `undefined` (the value of an absent property). -/
inductive Val where
  | vundef
  | vnull
  | vbool (b : Bool)
  | vnum (n : Int)
  | vstr (s : String)
  deriving DecidableEq

/-- A JSON value as produced by `JSON.parse` of a storage slot or of a
response body. -/
inductive JsonVal where
  | jnull
  | jbool (b : Bool)
  | jnum (n : Int)
  | jstr (s : String)
  | jarr (elems : List JsonVal)
  | jobj (fields : List (String × JsonVal))

/-- The state of the localStorage slot holding the table: the key may be
absent, hold a string that is not parseable JSON, or hold parseable JSON. -/
inductive Slot where
  | missing
  | corrupt
  | stored (j : JsonVal)

/-- A record or query object: an association list from field names to
values (JavaScript objects have unique keys; lookup takes the first hit). -/
abbrev Obj := List (String × Val)

/-- First-match lookup of a field in an object (JavaScript objects have
unique keys, so first-match and last-match coincide on representable
objects). -/
def lookupField (o : Obj) (k : String) : Option Val :=
  match o with
  | [] => none
  | kv :: tl => if kv.1 = k then some kv.2 else lookupField tl k

/-- Property access `o[k]`: the stored value, or `undefined` when absent. -/
def getField (o : Obj) (k : String) : Val :=
  (lookupField o k).getD Val.vundef

/-- The query predicate from `select`/`update`/`delete`:
`Object.keys(query).every(key => item[key] === query[key])`. -/
def matchesQuery (q : Obj) (item : Obj) : Bool :=
  q.all (fun kv => getField item kv.1 == kv.2)

/-- Property assignment `o[k] = v`: overwrite in place when the key exists,
otherwise append the new field (JavaScript property insertion order). -/
def setField (o : Obj) (k : String) (v : Val) : Obj :=
  if (lookupField o k).isSome then
    o.map (fun kv => if kv.1 = k then (k, v) else kv)
  else
    o ++ [(k, v)]

/-- The spread merge `{ ...item, ...updates }` from `update`: existing keys
keep their position and take the value from `updates` when present; keys
only in `updates` are appended in order. -/
def spreadMerge (o u : Obj) : Obj :=
  o.map (fun kv => ((kv.1, (lookupField u kv.1).getD kv.2) : String × Val)) ++
    u.filter (fun kv => (lookupField o kv.1).isNone)

/-- An object is JSON-representable when no field holds `undefined`
(`JSON.stringify` silently drops such fields). -/
def objWf (o : Obj) : Bool :=
  o.all (fun kv => !(kv.2 == Val.vundef))

/-- A table is JSON-representable when all its records are. -/
def tableWf (t : List Obj) : Bool :=
  t.all objWf

/-- `JSON.stringify` of one field value; `none` when the field is dropped. -/
def encodeVal : Val → Option JsonVal
  | .vundef => none
  | .vnull => some .jnull
  | .vbool b => some (.jbool b)
  | .vnum n => some (.jnum n)
  | .vstr s => some (.jstr s)

/-- Parsing one JSON field value back to a primitive (nested arrays and
objects do not occur in tables written by this client). -/
def decodeVal : JsonVal → Option Val
  | .jnull => some .vnull
  | .jbool b => some (.vbool b)
  | .jnum n => some (.vnum n)
  | .jstr s => some (.vstr s)
  | _ => none

/-- `JSON.stringify` of one record. -/
def encodeObj (o : Obj) : JsonVal :=
  .jobj (o.filterMap (fun kv => (encodeVal kv.2).map (fun j => (kv.1, j))))

/-- Parsing one JSON value as a record. -/
def decodeObj : JsonVal → Option Obj
  | .jobj fs => some (fs.filterMap (fun kv => (decodeVal kv.2).map (fun v => (kv.1, v))))
  | _ => none

/-- `JSON.stringify` of the whole table. -/
def encodeTable (t : List Obj) : JsonVal :=
  .jarr (t.map encodeObj)

/-- Parsing the slot content as a table.  The source performs an unchecked
`as T[]` cast; a parseable non-array is modelled as the empty table. -/
def decodeTable : JsonVal → List Obj
  | .jarr xs => xs.filterMap decodeObj
  | _ => []

/-- `_getTable`: `JSON.parse(localStorage.getItem(name) || '[]')`, with the
catch branch returning `[]` for unparseable content. -/
def getTable (s : Slot) : List Obj :=
  match s with
  | .missing => []
  | .corrupt => []
  | .stored j => decodeTable j

/-- `_setTable`: `localStorage.setItem(name, JSON.stringify(data))`. -/
def setTable (t : List Obj) : Slot :=
  .stored (encodeTable t)

/-- ECMAScript `Array.slice` index resolution: a negative index counts from
the end of the array, then the index is clamped to `[0, length]`. -/
def jsIndex (len : Nat) (i : Int) : Nat :=
  if i < 0 then ((len : Int) + i).toNat else min i.toNat len

/-- ECMAScript `arr.slice(a, b)`. -/
def jsSlice {α : Type} (l : List α) (a b : Int) : List α :=
  (l.take (jsIndex l.length b)).drop (jsIndex l.length a)

/-- The pure core of `select` on an already-read table: filter by the query,
then `filtered.slice(startIndex, startIndex + limit)` with
`startIndex = (page - 1) * limit`. -/
def selectList (t : List Obj) (q : Obj) (page limit : Int) : List Obj :=
  jsSlice (t.filter (fun item => matchesQuery q item))
    ((page - 1) * limit) ((page - 1) * limit + limit)

/-- `select(query, page = 1, limit = 10)`. -/
def select (s : Slot) (q : Obj) (page limit : Int) : List Obj :=
  selectList (getTable s) q page limit

/-- `insert(item)`: set `item.id = Date.now()`, push onto the table read
from storage, persist, and return the mutated item. -/
def insert (s : Slot) (item : Obj) (now : Int) : Slot × Obj :=
  let item' := setField item "id" (Val.vnum now)
  (setTable (getTable s ++ [item']), item')

/-- The pure core of `update`: map the merge over the table read from
storage. -/
def updateList (t : List Obj) (q u : Obj) : List Obj :=
  t.map (fun item => if matchesQuery q item then spreadMerge item u else item)

/-- `update(query, updates)`: persist the merged table, then return
`this.select(query)` — which re-reads the slot — at default page 1 limit 10. -/
def update (s : Slot) (q u : Obj) : Slot × List Obj :=
  let s' := setTable (updateList (getTable s) q u)
  (s', select s' q 1 10)

/-- `delete(query)`: persist the non-matching records, return
`table.length - newTable.length`. -/
def delete (s : Slot) (q : Obj) : Slot × Nat :=
  let t := getTable s
  let kept := t.filter (fun item => !(matchesQuery q item))
  (setTable kept, t.length - kept.length)

/-- `clear()`: persist the empty table. -/
def clear (_s : Slot) : Slot :=
  setTable []

/-- One pass of `fetchData`'s `fetchAndStoreData`: on success the parsed
response body is written to the slot unchanged (`_setTable(data)` with
`data` of arbitrary JSON shape); on a request or parse failure the catch
branch only logs, leaving the slot untouched. -/
def fetchData (s : Slot) (response : Option JsonVal) : Slot :=
  match response with
  | some j => .stored j
  | none => s

/-- A sequence of `insert` calls, each with its own clock reading. -/
def insertAll (s : Slot) (pairs : List (Obj × Int)) : Slot :=
  pairs.foldl (fun acc p => (insert acc p.1 p.2).1) s

/-- Modelled from the spec: the slice `[a, b)` of a sequence — the elements
whose 0-based index i satisfies a ≤ i and i < b.  This is the reading of
"the slice [(page-1)*limit, (page-1)*limit+limit) of the filtered sequence"
used to compare the spec with the code's `Array.slice`. -/
def sliceInterval {α : Type} (l : List α) (a b : Int) : List α :=
  (l.take b.toNat).drop a.toNat

/-- Whether the slot holds valid JSON representing an array. -/
def slotHoldsArray : Slot → Bool
  | .stored (.jarr _) => true
  | _ => false

/-! ### Concrete data used in counterexamples and witnesses -/

/-- A 15-record table, record i being `{"i": i}`, mirroring the spec's
15-record pagination scenario. -/
def table15 : List Obj :=
  [[("i", Val.vnum 1)], [("i", Val.vnum 2)], [("i", Val.vnum 3)],
   [("i", Val.vnum 4)], [("i", Val.vnum 5)], [("i", Val.vnum 6)],
   [("i", Val.vnum 7)], [("i", Val.vnum 8)], [("i", Val.vnum 9)],
   [("i", Val.vnum 10)], [("i", Val.vnum 11)], [("i", Val.vnum 12)],
   [("i", Val.vnum 13)], [("i", Val.vnum 14)], [("i", Val.vnum 15)]]

/-- The spec's three-record example table `{name:"a"},{name:"b"},{name:"a"}`. -/
def exTable : List Obj :=
  [[("name", Val.vstr "a")], [("name", Val.vstr "b")], [("name", Val.vstr "a")]]

/-- The spec's example query `{name:"a"}`. -/
def exQuery : Obj := [("name", Val.vstr "a")]

/-- The spec's example updates `{value:1}`. -/
def exUpdates : Obj := [("value", Val.vnum 1)]

/-! ### Association-list lemmas -/

theorem lookupField_nil (k : String) : lookupField [] k = none := rfl

theorem lookupField_cons (k0 : String) (v0 : Val) (tl : Obj) (k : String) :
    lookupField ((k0, v0) :: tl) k = if k0 = k then some v0 else lookupField tl k := rfl

theorem lookupField_append (k : String) (xs ys : Obj) :
    lookupField (xs ++ ys) k =
      (match lookupField xs k with
       | some v => some v
       | none => lookupField ys k) := by
  induction xs with
  | nil => simp [lookupField]
  | cons p tl ih =>
    obtain ⟨k0, v0⟩ := p
    by_cases h : k0 = k <;> simp [lookupField_cons, h, ih]

theorem lookup_mem {k : String} {w : Val} {u : Obj}
    (h : lookupField u k = some w) : (k, w) ∈ u := by
  induction u with
  | nil => simp [lookupField] at h
  | cons p tl ih =>
    obtain ⟨k0, v0⟩ := p
    rw [lookupField_cons] at h
    by_cases hk : k0 = k
    · rw [if_pos hk] at h
      obtain rfl : v0 = w := by injection h
      rw [hk]
      exact List.mem_cons_self _ _
    · rw [if_neg hk] at h
      exact List.mem_cons_of_mem _ (ih h)

/-! ### JSON round-trip: a stringified well-formed table parses back to
itself -/

theorem decode_encode_fields (o : Obj) (ho : objWf o = true) :
    (o.filterMap (fun kv => (encodeVal kv.2).map (fun j => (kv.1, j)))).filterMap
      (fun kv => (decodeVal kv.2).map (fun v => (kv.1, v))) = o := by
  induction o with
  | nil => simp
  | cons p tl ih =>
    obtain ⟨k0, v0⟩ := p
    simp only [objWf, List.all_cons, Bool.and_eq_true, Bool.not_eq_true',
      beq_eq_false_iff_ne, ne_eq] at ho
    have htl := ih ho.2
    cases v0 <;> simp_all [encodeVal, decodeVal, objWf]

theorem decodeObj_encodeObj (o : Obj) (ho : objWf o = true) :
    decodeObj (encodeObj o) = some o := by
  simp [decodeObj, encodeObj, decode_encode_fields o ho]

theorem getTable_setTable (t : List Obj) (ht : tableWf t = true) :
    getTable (setTable t) = t := by
  simp only [getTable, setTable, encodeTable, decodeTable, List.filterMap_map]
  induction t with
  | nil => simp
  | cons o tl ih =>
    simp only [tableWf, List.all_cons, Bool.and_eq_true] at ht
    simp [Function.comp, decodeObj_encodeObj o ht.1, ih ht.2]

theorem objWf_decodeObj {j : JsonVal} {o : Obj} (h : decodeObj j = some o) :
    objWf o = true := by
  cases j <;> simp [decodeObj] at h
  subst h
  rw [objWf, List.all_eq_true]
  intro kv hkv
  obtain ⟨⟨k0, j0⟩, _, hdec⟩ := List.mem_filterMap.mp hkv
  cases j0 <;> simp [decodeVal] at hdec <;> simp [← hdec]

theorem tableWf_getTable (s : Slot) : tableWf (getTable s) = true := by
  have key : ∀ xs : List JsonVal, tableWf (xs.filterMap decodeObj) = true := by
    intro xs
    rw [tableWf, List.all_eq_true]
    intro o ho
    obtain ⟨j0, _, hdec⟩ := List.mem_filterMap.mp ho
    exact objWf_decodeObj hdec
  cases s with
  | missing => rfl
  | corrupt => rfl
  | stored j => cases j <;> first | rfl | exact key _

/-! ### `Array.slice` lemmas -/

theorem jsSlice_nonneg {α : Type} (l : List α) (a b : Int) (ha : 0 ≤ a) (hb : 0 ≤ b) :
    jsSlice l a b = (l.take b.toNat).drop a.toNat := by
  rw [jsSlice, jsIndex, jsIndex, if_neg (by omega), if_neg (by omega)]
  have htake : l.take (min b.toNat l.length) = l.take b.toNat := by
    rcases le_total b.toNat l.length with h | h
    · rw [min_eq_left h]
    · rw [min_eq_right h, List.take_length, List.take_of_length_le h]
  rw [htake]
  rcases le_total a.toNat l.length with h | h
  · rw [min_eq_left h]
  · rw [min_eq_right h]
    have h1 : (l.take b.toNat).length ≤ l.length := by
      simp [List.length_take]
    rw [List.drop_eq_nil_of_le h1, List.drop_eq_nil_of_le (le_trans h1 h)]

theorem jsSlice_all {α : Type} (l : List α) (b : Int) (hb : (l.length : Int) ≤ b) :
    jsSlice l 0 b = l := by
  have hb0 : (0 : Int) ≤ b := by omega
  have hlen : l.length ≤ b.toNat := by omega
  rw [jsSlice_nonneg l 0 b le_rfl hb0, List.take_of_length_le hlen]
  simp

/-! ### Field access through `setField` and the spread merge -/

theorem lookup_spreadMerge_map (o u : Obj) (k : String) :
    lookupField (o.map (fun kv => ((kv.1, (lookupField u kv.1).getD kv.2) : String × Val))) k
      = (lookupField o k).map (fun w => (lookupField u k).getD w) := by
  induction o with
  | nil => simp [lookupField]
  | cons p tl ih =>
    obtain ⟨k0, v0⟩ := p
    by_cases h : k0 = k
    · subst h
      simp [lookupField_cons]
    · simp [lookupField_cons, h, ih]

theorem lookup_filter_absent (o u : Obj) (k : String) (ho : lookupField o k = none) :
    lookupField (u.filter (fun kv => (lookupField o kv.1).isNone)) k = lookupField u k := by
  induction u with
  | nil => simp
  | cons p tl ih =>
    obtain ⟨k1, v1⟩ := p
    by_cases hp : (lookupField o k1).isNone = true
    · have hcons : List.filter (fun kv => (lookupField o kv.1).isNone) ((k1, v1) :: tl)
          = (k1, v1) :: List.filter (fun kv => (lookupField o kv.1).isNone) tl := by
        simp [List.filter_cons, hp]
      rw [hcons]
      by_cases h : k1 = k <;> simp [lookupField_cons, h, ih]
    · have hp' : (lookupField o k1).isNone = false := by
        rwa [Bool.not_eq_true] at hp
      have hcons : List.filter (fun kv => (lookupField o kv.1).isNone) ((k1, v1) :: tl)
          = List.filter (fun kv => (lookupField o kv.1).isNone) tl := by
        simp [List.filter_cons, hp']
      have hk : k1 ≠ k := by
        intro hkk
        subst hkk
        exact hp (by simp [ho])
      rw [hcons, lookupField_cons, if_neg hk, ih]

theorem getField_spreadMerge (o u : Obj) (k : String) :
    getField (spreadMerge o u) k = (lookupField u k).getD (getField o k) := by
  rw [getField, spreadMerge, lookupField_append]
  cases ho : lookupField o k with
  | none =>
    rw [lookup_spreadMerge_map, ho]
    simp only [Option.map_none']
    rw [lookup_filter_absent o u k ho, getField, ho]
    rfl
  | some w =>
    rw [lookup_spreadMerge_map, ho]
    simp only [Option.map_some']
    rw [getField, ho]
    cases lookupField u k <;> rfl

theorem lookup_map_overwrite (tl : List (String × Val)) (k k' : String) (v : Val)
    (hne : k' ≠ k) :
    lookupField (tl.map (fun kv => if kv.1 = k then (k, v) else kv)) k'
      = lookupField tl k' := by
  induction tl with
  | nil => simp [lookupField]
  | cons p tl ih =>
    obtain ⟨k0, v0⟩ := p
    by_cases hk : k0 = k
    · subst hk
      simp [lookupField_cons, Ne.symm hne, ih]
    · by_cases h0 : k0 = k'
      · subst h0
        simp [lookupField_cons, hk]

      · simp [lookupField_cons, hk, h0, ih]

theorem lookup_map_overwrite_self (tl : List (String × Val)) (k : String) (v : Val)
    (h : (lookupField tl k).isSome = true) :
    lookupField (tl.map (fun kv => if kv.1 = k then (k, v) else kv)) k = some v := by
  induction tl with
  | nil => simp [lookupField] at h
  | cons p tl ih =>
    obtain ⟨k0, v0⟩ := p
    by_cases hk : k0 = k
    · subst hk
      simp [lookupField_cons]
    · rw [lookupField_cons, if_neg hk] at h
      simp [lookupField_cons, hk, ih h]

theorem lookup_setField_self (o : Obj) (k : String) (v : Val) :
    lookupField (setField o k v) k = some v := by
  rw [setField]
  by_cases h : (lookupField o k).isSome = true
  · rw [if_pos h]
    exact lookup_map_overwrite_self o k v h
  · rw [if_neg h, lookupField_append]
    have ho : lookupField o k = none := by
      cases hx : lookupField o k
      · rfl
      · rw [hx] at h
        simp at h
    rw [ho]
    simp [lookupField_cons]

theorem getField_setField (o : Obj) (k : String) (v : Val) :
    getField (setField o k v) k = v := by
  rw [getField, lookup_setField_self]
  rfl

theorem lookup_setField_ne (o : Obj) (k k' : String) (v : Val) (hne : k' ≠ k) :
    lookupField (setField o k v) k' = lookupField o k' := by
  rw [setField]
  by_cases h : (lookupField o k).isSome = true
  · rw [if_pos h]
    exact lookup_map_overwrite o k k' v hne
  · rw [if_neg h, lookupField_append]
    cases ho : lookupField o k' <;>
      simp [lookupField_cons, lookupField_nil, Ne.symm hne]

/-! ### Well-formedness preservation -/

theorem objWf_setField {o : Obj} {k : String} {v : Val} (ho : objWf o = true)
    (hv : v ≠ Val.vundef) : objWf (setField o k v) = true := by
  simp only [objWf, List.all_eq_true, Bool.not_eq_true', beq_eq_false_iff_ne, ne_eq] at ho ⊢
  rw [setField]
  split
  · intro kv hkv
    obtain ⟨kv0, hmem, heq⟩ := List.mem_map.mp hkv
    by_cases hif : kv0.1 = k
    · rw [if_pos hif] at heq
      rw [← heq]
      exact hv
    · rw [if_neg hif] at heq
      rw [← heq]
      exact ho _ hmem
  · intro kv hkv
    rcases List.mem_append.mp hkv with hm | hm
    · exact ho _ hm
    · simp only [List.mem_singleton] at hm
      rw [hm]
      exact hv

theorem objWf_spreadMerge {o u : Obj} (ho : objWf o = true) (hu : objWf u = true) :
    objWf (spreadMerge o u) = true := by
  simp only [objWf, List.all_eq_true, Bool.not_eq_true', beq_eq_false_iff_ne, ne_eq] at ho hu ⊢
  intro kv hkv
  rw [spreadMerge] at hkv
  rcases List.mem_append.mp hkv with hm | hm
  · obtain ⟨kv0, hmem, heq⟩ := List.mem_map.mp hm
    cases hl : lookupField u kv0.1 with
    | none =>
      rw [← heq]
      simpa [hl] using ho _ hmem
    | some w =>
      rw [← heq]
      simpa [hl] using hu _ (lookup_mem hl)
  · exact hu _ (List.mem_filter.mp hm).1

theorem tableWf_updateList {t : List Obj} {q u : Obj} (ht : tableWf t = true)
    (hu : objWf u = true) : tableWf (updateList t q u) = true := by
  rw [tableWf, List.all_eq_true] at ht ⊢
  intro o ho
  rw [updateList] at ho
  obtain ⟨o0, hmem, heq⟩ := List.mem_map.mp ho
  cases h : matchesQuery q o0 <;> rw [h] at heq <;> simp at heq
  · rw [← heq]
    exact ht _ hmem
  · rw [← heq]
    exact objWf_spreadMerge (ht _ hmem) hu

theorem tableWf_append {t1 t2 : List Obj} (h1 : tableWf t1 = true)
    (h2 : tableWf t2 = true) : tableWf (t1 ++ t2) = true := by
  rw [tableWf, List.all_append]
  rw [tableWf] at h1 h2
  simp [h1, h2]

/-! ### Claim theorems -/

/-- Claim C5: for every public Table Store operation, a storage read
failure — a missing slot or a slot whose content is not parseable JSON —
never propagates an exception (all embedded operations are total), and the
operation behaves for that call exactly as on an empty table. -/
theorem C5_read_failure_behaves_as_empty (q u it : Obj) (p l now : Int) :
    (select Slot.corrupt q p l = select (setTable []) q p l ∧
      insert Slot.corrupt it now = insert (setTable []) it now ∧
      update Slot.corrupt q u = update (setTable []) q u ∧
      delete Slot.corrupt q = delete (setTable []) q ∧
      clear Slot.corrupt = clear (setTable [])) ∧
    (select Slot.missing q p l = select (setTable []) q p l ∧
      insert Slot.missing it now = insert (setTable []) it now ∧
      update Slot.missing q u = update (setTable []) q u ∧
      delete Slot.missing q = delete (setTable []) q ∧
      clear Slot.missing = clear (setTable [])) :=
  ⟨⟨rfl, rfl, rfl, rfl, rfl⟩, ⟨rfl, rfl, rfl, rfl, rfl⟩⟩

/-- Claim C6: one pass of the pull-and-replace sync either unconditionally
overwrites the slot with the parsed response body — independently of any
prior content, no merge, no partial overwrite — or, on a failed request or
parse error, leaves the slot exactly as it was. -/
theorem C6_fetch_overwrites_or_leaves_untouched (s s2 : Slot) (j : JsonVal) :
    fetchData s (some j) = Slot.stored j ∧
    fetchData s none = s ∧
    fetchData s (some j) = fetchData s2 (some j) :=
  ⟨rfl, rfl, rfl⟩

/-- Claim C7, counterexample: one reachable `fetchData` pass whose response
body parses to the JSON number `5` leaves the slot holding a non-array
value, refuting "no reachable operation sequence leaves a non-array value
in the slot". -/
theorem C7_counterexample :
    fetchData Slot.missing (some (JsonVal.jnum 5)) = Slot.stored (JsonVal.jnum 5) ∧
    slotHoldsArray (fetchData Slot.missing (some (JsonVal.jnum 5))) = false :=
  ⟨rfl, rfl⟩

/-- Claim C7, amended: every table-writing CRUD operation (`insert`,
`update`, `delete`, `clear`) leaves valid JSON representing an array in the
slot (`select` performs no write), and a `fetchData` pass preserves this
only when it fails (slot untouched) or when its response body parses to an
array — a non-array response is stored as-is (see the counterexample). -/
theorem C7_crud_slot_always_array (s : Slot) (it q u : Obj) (now : Int)
    (xs : List JsonVal) :
    slotHoldsArray ((insert s it now).1) = true ∧
    slotHoldsArray ((update s q u).1) = true ∧
    slotHoldsArray ((delete s q).1) = true ∧
    slotHoldsArray (clear s) = true ∧
    slotHoldsArray (fetchData s (some (JsonVal.jarr xs))) = true ∧
    fetchData s none = s :=
  ⟨rfl, rfl, rfl, rfl, rfl, rfl⟩

/-- Claim C8, counterexample: with 15 records and an empty query,
`select({}, -1, 10)` returns records 1–5 — under JavaScript `slice`
semantics the negative start index counts from the end — which is neither
the empty sequence nor the full filtered sequence, refuting "degrades to
either an empty slice or the full filtered sequence". -/
theorem C8_counterexample :
    select (setTable table15) [] (-1) 10
        = [[("i", Val.vnum 1)], [("i", Val.vnum 2)], [("i", Val.vnum 3)],
           [("i", Val.vnum 4)], [("i", Val.vnum 5)]] ∧
    select (setTable table15) [] (-1) 10 ≠ [] ∧
    select (setTable table15) [] (-1) 10
        ≠ (getTable (setTable table15)).filter (fun it => matchesQuery [] it) :=
  ⟨by decide, by decide, by decide⟩

/-- Claim C8, amended: `select` never raises an error (it is total), and
for every page and limit — including non-positive and out-of-range values —
its result is a contiguous sub-slice (a drop of a take) of the filtered
sequence; with JavaScript negative-index `slice` semantics this sub-slice
can be proper, neither empty nor full (see the counterexample). -/
theorem C8_select_always_contiguous_subslice (s : Slot) (q : Obj) (p l : Int) :
    ∃ a b : Nat,
      select s q p l
        = (((getTable s).filter (fun it => matchesQuery q it)).take b).drop a :=
  ⟨jsIndex ((getTable s).filter (fun it => matchesQuery q it)).length ((p - 1) * l),
    jsIndex ((getTable s).filter (fun it => matchesQuery q it)).length ((p - 1) * l + l),
    rfl⟩

/-- Claim C9, counterexample: the query `{name: undefined}` names the field
`name`, the record `{x: 1}` lacks it, yet the record matches, because
JavaScript property access on the missing field yields `undefined` and
`undefined === undefined`; this refutes "for any value the query assigns to
that field". -/
theorem C9_counterexample :
    lookupField [("x", Val.vnum 1)] "name" = none ∧
    matchesQuery [("name", Val.vundef)] [("x", Val.vnum 1)] = true :=
  ⟨by decide, by decide⟩

/-- Claim C9, amended: if the query names a field that is absent from the
record and assigns it any *defined* (non-`undefined`) value, the record
does not match; a query field explicitly set to `undefined` instead matches
a record lacking that field (see the counterexample). -/
theorem C9_absent_field_never_matches_defined (r q : Obj) (k : String) (v : Val)
    (hmem : (k, v) ∈ q) (hv : v ≠ Val.vundef) (habs : lookupField r k = none) :
    matchesQuery q r = false := by
  by_contra hcon
  have hm : matchesQuery q r = true := by
    cases hx : matchesQuery q r
    · exact absurd hx hcon
    · rfl
  rw [matchesQuery, List.all_eq_true] at hm
  have h2 := hm (k, v) hmem
  simp only [getField, habs, Option.getD_none] at h2
  exact hv (eq_of_beq h2).symm

/-- Claim C9, witness for the amended theorem at the concrete query
`{name:"a"}` and record `{x:1}`. -/
theorem C9_witness :
    (("name", Val.vstr "a") ∈ ([("name", Val.vstr "a")] : Obj)) ∧
    Val.vstr "a" ≠ Val.vundef ∧
    lookupField [("x", Val.vnum 1)] "name" = none ∧
    matchesQuery [("name", Val.vstr "a")] [("x", Val.vnum 1)] = false :=
  ⟨by decide, by decide, by decide,
    C9_absent_field_never_matches_defined [("x", Val.vnum 1)] [("name", Val.vstr "a")]
      "name" (Val.vstr "a") (by decide) (by decide) (by decide)⟩

/-- Claim C10: `insert` overwrites the item's `id` field with the freshly
generated clock value and returns that mutated item — the returned record
is the input record with exactly the `id` field replaced (every other field
unchanged, in place); the table gains the mutated item; and the returned
`id` differs from any caller-supplied `id` that differs from the clock
value.  The well-formedness hypothesis says the input item is
JSON-representable (no `undefined`-valued fields). -/
theorem C10_insert_overwrites_id (s : Slot) (item : Obj) (now : Int)
    (hw : objWf item = true) :
    (insert s item now).2 = setField item "id" (Val.vnum now) ∧
    getField (insert s item now).2 "id" = Val.vnum now ∧
    (∀ k, k ≠ "id" → lookupField (insert s item now).2 k = lookupField item k) ∧
    getTable (insert s item now).1 = getTable s ++ [(insert s item now).2] ∧
    (∀ v : Val, getField item "id" = v → v ≠ Val.vnum now →
      getField (insert s item now).2 "id" ≠ v) := by
  refine ⟨rfl, getField_setField item "id" (Val.vnum now), ?_, ?_, ?_⟩
  · intro k hk
    exact lookup_setField_ne item "id" k (Val.vnum now) hk
  · have h2 : objWf (setField item "id" (Val.vnum now)) = true :=
      objWf_setField hw (by simp)
    have hwt : tableWf (getTable s ++ [setField item "id" (Val.vnum now)]) = true :=
      tableWf_append (tableWf_getTable s) (by simp [tableWf, h2])
    exact getTable_setTable _ hwt
  · intro v hvitem hvne
    show getField (setField item "id" (Val.vnum now)) "id" ≠ v
    rw [getField_setField]
    exact fun hc => hvne hc.symm

/-- Claim C10, witness: inserting `{id: 99, name: "a"}` at clock value 7
yields a record whose `id` is 7 (not the caller-supplied 99) and whose
`name` field is unchanged. -/
theorem C10_witness :
    objWf [("id", Val.vnum 99), ("name", Val.vstr "a")] = true ∧
    getField (insert Slot.missing [("id", Val.vnum 99), ("name", Val.vstr "a")] 7).2 "id"
      = Val.vnum 7 ∧
    lookupField (insert Slot.missing [("id", Val.vnum 99), ("name", Val.vstr "a")] 7).2 "name"
      = lookupField [("id", Val.vnum 99), ("name", Val.vstr "a")] "name" ∧
    getField (insert Slot.missing [("id", Val.vnum 99), ("name", Val.vstr "a")] 7).2 "id"
      ≠ Val.vnum 99 := by
  refine ⟨by decide, ?_, ?_, ?_⟩
  · exact (C10_insert_overwrites_id Slot.missing
      [("id", Val.vnum 99), ("name", Val.vstr "a")] 7 (by decide)).2.1
  · exact (C10_insert_overwrites_id Slot.missing
      [("id", Val.vnum 99), ("name", Val.vstr "a")] 7 (by decide)).2.2.1 "name" (by decide)
  · exact (C10_insert_overwrites_id Slot.missing
      [("id", Val.vnum 99), ("name", Val.vstr "a")] 7 (by decide)).2.2.2.2
      (Val.vnum 99) (by decide) (by decide)

/-- Claim C1, counterexample: with the spec's slice written as the index
interval `[(page-1)*limit, (page-1)*limit+limit)`, `select({}, 1, -1)` on a
two-record table should return the elements with index in `[0, -1)` — none —
but the code's `Array.slice` interprets the negative end index from the end
of the array and returns the first record; so the claim fails for limits
outside `page ≥ 1, limit ≥ 0`. -/
theorem C1_counterexample :
    select (setTable [[("i", Val.vnum 1)], [("i", Val.vnum 2)]]) [] 1 (-1)
        = [[("i", Val.vnum 1)]] ∧
    sliceInterval
        ((getTable (setTable [[("i", Val.vnum 1)], [("i", Val.vnum 2)]])).filter
          (fun it => matchesQuery [] it))
        ((1 - 1) * (-1)) ((1 - 1) * (-1) + (-1)) = [] ∧
    select (setTable [[("i", Val.vnum 1)], [("i", Val.vnum 2)]]) [] 1 (-1)
        ≠ sliceInterval
            ((getTable (setTable [[("i", Val.vnum 1)], [("i", Val.vnum 2)]])).filter
              (fun it => matchesQuery [] it))
            ((1 - 1) * (-1)) ((1 - 1) * (-1) + (-1)) :=
  ⟨by decide, by decide, by decide⟩

/-- Claim C1, amended: for every persisted table, query, page ≥ 1 and
limit ≥ 0, `select(query, page, limit)` returns exactly the index slice
`[(page-1)*limit, (page-1)*limit+limit)` of the subsequence of the table's
records, in stored order, that match every query field by exact equality;
for negative page or limit JavaScript `slice` semantics take over (see the
counterexample).  The spec's 15-record pagination examples are instances
(see the witness). -/
theorem C1_select_returns_page_slice (s : Slot) (q : Obj) (p l : Int)
    (hp : 1 ≤ p) (hl : 0 ≤ l) :
    select s q p l
      = sliceInterval ((getTable s).filter (fun it => matchesQuery q it))
          ((p - 1) * l) ((p - 1) * l + l) := by
  have ha : 0 ≤ (p - 1) * l := mul_nonneg (by omega) hl
  have hb : 0 ≤ (p - 1) * l + l := by omega
  exact jsSlice_nonneg ((getTable s).filter (fun it => matchesQuery q it))
    ((p - 1) * l) ((p - 1) * l + l) ha hb

/-- Claim C1, witness: the spec's pagination scenario — 15 records, empty
query: page 2 limit 10 returns records 11–15, page 3 limit 10 returns
nothing. -/
theorem C1_witness :
    (1 : Int) ≤ 2 ∧ (0 : Int) ≤ 10 ∧
    select (setTable table15) [] 2 10
      = sliceInterval ((getTable (setTable table15)).filter (fun it => matchesQuery [] it))
          ((2 - 1) * 10) ((2 - 1) * 10 + 10) ∧
    select (setTable table15) [] 2 10
      = [[("i", Val.vnum 11)], [("i", Val.vnum 12)], [("i", Val.vnum 13)],
         [("i", Val.vnum 14)], [("i", Val.vnum 15)]] ∧
    select (setTable table15) [] 3 10 = [] :=
  ⟨by decide, by decide,
    C1_select_returns_page_slice (setTable table15) [] 2 10 (by decide) (by decide),
    by decide, by decide⟩

/-- Claim C3: `delete(query)` persists exactly the subsequence of records
that do not match the query (order preserved — it is a sublist of the
original), and returns the number of removed records, which equals both the
number of matching records and the original length minus the retained
length. -/
theorem C3_delete_removes_matching (s : Slot) (q : Obj) :
    getTable ((delete s q).1)
      = (getTable s).filter (fun it => !(matchesQuery q it)) ∧
    (delete s q).2
      = ((getTable s).filter (fun it => matchesQuery q it)).length ∧
    (delete s q).2
      = (getTable s).length
          - ((getTable s).filter (fun it => !(matchesQuery q it))).length ∧
    List.Sublist ((getTable s).filter (fun it => !(matchesQuery q it))) (getTable s) := by
  have hwf : tableWf ((getTable s).filter (fun it => !(matchesQuery q it))) = true := by
    rw [tableWf, List.all_eq_true]
    intro o ho
    have hall := tableWf_getTable s
    rw [tableWf, List.all_eq_true] at hall
    exact hall o (List.mem_filter.mp ho).1
  refine ⟨getTable_setTable _ hwf, ?_, rfl, List.filter_sublist _⟩
  have hpart : (getTable s).length
      = ((getTable s).filter (fun it => matchesQuery q it)).length
        + ((getTable s).filter (fun it => !(matchesQuery q it))).length :=
    List.length_eq_length_filter_add _
  show (getTable s).length
      - ((getTable s).filter (fun it => !(matchesQuery q it))).length = _
  omega

/-- Claim C2: `update(query, updates)` replaces every matching record with
the shallow merge of `updates` over it — position by position, matching
records become the merge, non-matching records are returned unchanged — the
merge gives every field named in `updates` its `updates` value and
preserves every other field of the original; the merged table is persisted,
and the call returns exactly `select(query)` (default page 1, limit 10)
re-run against the now-updated table.  The hypothesis says `updates` is
JSON-representable (no `undefined`-valued fields), so that the re-read
table is the merged table itself. -/
theorem C2_update_merges_and_reselects (s : Slot) (q u : Obj)
    (hu : objWf u = true) :
    (∀ i : Nat,
      (updateList (getTable s) q u)[i]?
        = ((getTable s)[i]?).map
            (fun item => if matchesQuery q item then spreadMerge item u else item)) ∧
    (∀ item k,
      getField (spreadMerge item u) k = (lookupField u k).getD (getField item k)) ∧
    update s q u
      = (setTable (updateList (getTable s) q u),
          selectList (updateList (getTable s) q u) q 1 10) := by
  refine ⟨?_, ?_, ?_⟩
  · intro i
    rw [updateList]
    exact List.getElem?_map _ _ i
  · intro item k
    exact getField_spreadMerge item u k
  · have hwt : tableWf (updateList (getTable s) q u) = true :=
      tableWf_updateList (tableWf_getTable s) hu
    show (setTable (updateList (getTable s) q u),
        select (setTable (updateList (getTable s) q u)) q 1 10) = _
    rw [select, getTable_setTable _ hwt]

/-- Claim C2, witness: the spec's example — table
`{name:"a"},{name:"b"},{name:"a"}`, query `{name:"a"}`, updates
`{value:1}` — where the returned records are the two merged records. -/
theorem C2_witness :
    objWf exUpdates = true ∧
    update (setTable exTable) exQuery exUpdates
      = (setTable (updateList (getTable (setTable exTable)) exQuery exUpdates),
          selectList (updateList (getTable (setTable exTable)) exQuery exUpdates)
            exQuery 1 10) ∧
    (update (setTable exTable) exQuery exUpdates).2
      = [[("name", Val.vstr "a"), ("value", Val.vnum 1)],
         [("name", Val.vstr "a"), ("value", Val.vnum 1)]] :=
  ⟨by decide,
    (C2_update_merges_and_reselects (setTable exTable) exQuery exUpdates (by decide)).2.2,
    by decide⟩

theorem getTable_insertAll (pairs : List (Obj × Int)) (s : Slot)
    (hp : ∀ p ∈ pairs, objWf p.1 = true) :
    getTable (insertAll s pairs)
      = getTable s ++ pairs.map (fun p => setField p.1 "id" (Val.vnum p.2)) := by
  induction pairs generalizing s with
  | nil => simp [insertAll]
  | cons p rest ih =>
    obtain ⟨it, c⟩ := p
    have hit : objWf it = true := hp (it, c) (List.mem_cons_self _ _)
    have hrest : ∀ p ∈ rest, objWf p.1 = true :=
      fun p hm => hp p (List.mem_cons_of_mem _ hm)
    have hstep : insertAll s ((it, c) :: rest)
        = insertAll (setTable (getTable s ++ [setField it "id" (Val.vnum c)])) rest := rfl
    have h2 : objWf (setField it "id" (Val.vnum c)) = true :=
      objWf_setField hit (by simp)
    have hwt : tableWf (getTable s ++ [setField it "id" (Val.vnum c)]) = true :=
      tableWf_append (tableWf_getTable s) (by simp [tableWf, h2])
    rw [hstep, ih _ hrest, getTable_setTable _ hwt]
    simp

/-- Claim C4, counterexample: inserting two distinct records into an empty
table with the same `Date.now()` reading (two inserts within one clock
tick) yields two records whose `id`s are both 5 — not pairwise distinct —
refuting the unconditional uniqueness claim. -/
theorem C4_counterexample :
    ([("a", Val.vnum 1)] : Obj) ≠ [("a", Val.vnum 2)] ∧
    (select (insertAll Slot.missing
        [([("a", Val.vnum 1)], 5), ([("a", Val.vnum 2)], 5)]) [] 1 10).map
      (fun r => getField r "id") = [Val.vnum 5, Val.vnum 5] ∧
    ¬ ((select (insertAll Slot.missing
        [([("a", Val.vnum 1)], 5), ([("a", Val.vnum 2)], 5)]) [] 1 10).map
      (fun r => getField r "id")).Nodup :=
  ⟨by decide, by decide, by decide⟩

/-- Claim C4, amended: inserting N distinct JSON-representable records into
an empty table, *at pairwise-distinct clock readings*, and then selecting
with the empty query, page 1 and limit ≥ N, returns all N records in
insertion order, each being the inserted record with its `id` set to the
clock value — a non-null, defined `id` — and all N `id`s pairwise distinct.
Two inserts within the same clock tick share an `id` (see the
counterexample), as the spec itself warns in §9. -/
theorem C4_insert_select_roundtrip (items : List Obj) (clocks : List Int) (L : Int)
    (hlen : clocks.length = items.length)
    (_hitems : items.Nodup)
    (hwf : tableWf items = true)
    (hclocks : clocks.Nodup)
    (hL : (items.length : Int) ≤ L) :
    select (insertAll Slot.missing (items.zip clocks)) [] 1 L
      = (items.zip clocks).map (fun p => setField p.1 "id" (Val.vnum p.2)) ∧
    (∀ r ∈ (items.zip clocks).map (fun p => setField p.1 "id" (Val.vnum p.2)),
      getField r "id" ≠ Val.vnull ∧ getField r "id" ≠ Val.vundef) ∧
    ((items.zip clocks).map (fun p => setField p.1 "id" (Val.vnum p.2))).map
        (fun r => getField r "id") = clocks.map (fun c => Val.vnum c) ∧
    (((items.zip clocks).map (fun p => setField p.1 "id" (Val.vnum p.2))).map
        (fun r => getField r "id")).Nodup := by
  have hzip : ∀ p ∈ items.zip clocks, objWf p.1 = true := by
    intro p hpm
    obtain ⟨a, b⟩ := p
    have hmem : a ∈ items := (List.of_mem_zip hpm).1
    rw [tableWf, List.all_eq_true] at hwf
    exact hwf _ hmem
  have htbl : getTable (insertAll Slot.missing (items.zip clocks))
      = (items.zip clocks).map (fun p => setField p.1 "id" (Val.vnum p.2)) := by
    have h := getTable_insertAll (items.zip clocks) Slot.missing hzip
    simpa using h
  have hids : ((items.zip clocks).map (fun p => setField p.1 "id" (Val.vnum p.2))).map
      (fun r => getField r "id") = clocks.map (fun c => Val.vnum c) := by
    rw [List.map_map]
    have hcong : ∀ p ∈ items.zip clocks,
        ((fun r => getField r "id") ∘ (fun p => setField p.1 "id" (Val.vnum p.2))) p
          = ((fun c => Val.vnum c) ∘ Prod.snd) p := by
      intro p hpm
      simp [Function.comp, getField_setField]
    rw [List.map_congr_left hcong, ← List.map_map,
      List.map_snd_zip items clocks (le_of_eq hlen)]
  refine ⟨?_, ?_, hids, ?_⟩
  · rw [select, htbl, selectList]
    have hfilter : ((items.zip clocks).map
          (fun p => setField p.1 "id" (Val.vnum p.2))).filter
          (fun item => matchesQuery [] item)
        = (items.zip clocks).map (fun p => setField p.1 "id" (Val.vnum p.2)) :=
      List.filter_eq_self.mpr (fun a _ => rfl)
    rw [hfilter]
    have hlen2 : ((((items.zip clocks)).map
        (fun p => setField p.1 "id" (Val.vnum p.2))).length : Int) ≤ L := by
      rw [List.length_map, List.length_zip]
      rw [hlen]
      simpa using hL
    have h0 : ((1 : Int) - 1) * L = 0 := by ring
    have h1 : (0 : Int) + L = L := by omega
    rw [h0, h1]
    exact jsSlice_all _ L hlen2
  · intro r hr
    obtain ⟨p, hpm, rfl⟩ := List.mem_map.mp hr
    constructor <;> rw [getField_setField] <;> simp
  · rw [hids]
    exact List.Nodup.map (fun a b h => Val.vnum.inj h) hclocks

/-- Claim C4, witness for the amended theorem: two records `{a:1}`, `{a:2}`
inserted at distinct clock values 5 and 6, selected with limit 10. -/
theorem C4_witness :
    ([5, 6] : List Int).length = ([[("a", Val.vnum 1)], [("a", Val.vnum 2)]] : List Obj).length ∧
    ([[("a", Val.vnum 1)], [("a", Val.vnum 2)]] : List Obj).Nodup ∧
    tableWf [[("a", Val.vnum 1)], [("a", Val.vnum 2)]] = true ∧
    ([5, 6] : List Int).Nodup ∧
    ((([[("a", Val.vnum 1)], [("a", Val.vnum 2)]] : List Obj).length : Int) ≤ 10) ∧
    select (insertAll Slot.missing
        (([[("a", Val.vnum 1)], [("a", Val.vnum 2)]] : List Obj).zip ([5, 6] : List Int)))
        [] 1 10
      = (([[("a", Val.vnum 1)], [("a", Val.vnum 2)]] : List Obj).zip ([5, 6] : List Int)).map
          (fun p => setField p.1 "id" (Val.vnum p.2)) ∧
    (((([[("a", Val.vnum 1)], [("a", Val.vnum 2)]] : List Obj).zip ([5, 6] : List Int)).map
        (fun p => setField p.1 "id" (Val.vnum p.2))).map
        (fun r => getField r "id")).Nodup := by
  refine ⟨by decide, by decide, by decide, by decide, by decide, ?_, ?_⟩
  · exact (C4_insert_select_roundtrip [[("a", Val.vnum 1)], [("a", Val.vnum 2)]]
      [5, 6] 10 (by decide) (by decide) (by decide) (by decide) (by decide)).1
  · exact (C4_insert_select_roundtrip [[("a", Val.vnum 1)], [("a", Val.vnum 2)]]
      [5, 6] 10 (by decide) (by decide) (by decide) (by decide) (by decide)).2.2.2

end LocalStorageClient
